import Mathlib

/-!
# Verification of the spacy-llm task core

A shallow embedding of the task core of the `spacy-llm` repository
(`spacy_llm/tasks/builtin_task.py`, `spacy_llm/tasks/ner.py`,
`spacy_llm/tasks/summarization/task.py`,
`spacy_llm/tasks/entity_linker/candidate_selector.py`), together with
theorems settling the specification claims about it.

Python strings are embedded as `List Char` (a Python `str` is a sequence of
code points); Python dicts (insertion ordered, update-in-place) as
association lists; fallible code as `Except`.  Collaborators that are
external to the repository (the spaCy `PhraseMatcher`, `Doc.char_span`,
the byte encoders in `srsly`) are taken as parameters of the embedded
functions; the few external values the claims mention (`filter_spans`,
`EntityLinker.NIL`, `UNAVAILABLE_ENTITY_DESC`) are modelled from the spec
and marked as such in their doc comments.
-/

/-- A Python string: a sequence of code points. -/
abbrev Str : Type := List Char

/-- Conversion from a Lean string literal to the embedded string type. -/
def strOf (s : String) : Str := s.data

/-- Python whitespace characters stripped by `str.strip()` (ASCII range). -/
def pyIsSpace (c : Char) : Bool :=
  c = ' ' || c = '\t' || c = '\n' || c = '\x0d' || c = '\x0b' || c = '\x0c'

/-- Python `str.strip()`: remove leading and trailing whitespace. -/
def pyStrip (s : Str) : Str :=
  ((s.dropWhile pyIsSpace).reverse.dropWhile pyIsSpace).reverse

/-- Python `str.lower()` (exact on the ASCII range). -/
def pyLower (s : Str) : Str := s.map Char.toLower

/-- Python `str.split(sep)` for a one-character separator `sep`. -/
def pySplitChar (sep : Char) : Str → List Str
  | [] => [[]]
  | c :: rest =>
    if c = sep then [] :: pySplitChar sep rest
    else
      match pySplitChar sep rest with
      | [] => [[c]]
      | h :: t => (c :: h) :: t

/-- Python `str.split(sep, 1)` for a one-character separator: split at the
first occurrence; `none` when the separator does not occur. -/
def pySplit1 (sep : Char) : Str → Option (Str × Str)
  | [] => none
  | c :: rest =>
    if c = sep then some ([], rest)
    else (pySplit1 sep rest).map (fun p => (c :: p.1, p.2))

/-- Python string comparison: lexicographic on code points (`s1 <= s2`). -/
def lexLe : Str → Str → Bool
  | [], _ => true
  | _ :: _, [] => false
  | a :: as_, b :: bs =>
    if a < b then true
    else if b < a then false
    else lexLe as_ bs

/-- Insert into a `lexLe`-ascending list (auxiliary to `pySortAsc`). -/
def insertAsc (x : Str) : List Str → List Str
  | [] => [x]
  | y :: ys => if lexLe x y then x :: y :: ys else y :: insertAsc x ys

/-- Python `sorted` on strings: ascending lexicographic order. -/
def pySortAsc (l : List Str) : List Str := l.foldr insertAsc []

/-- Python `sorted(set(l))`: the distinct elements of `l` in ascending
lexicographic order. -/
def pySortedSet (l : List Str) : List Str := pySortAsc l.eraseDups

/-! ## Python dict embedding

A CPython dict preserves key insertion order and updates values in place;
we embed it as an association list with exactly that behaviour. -/

/-- The label map: an insertion-ordered Python dict from normalized keys to
canonical display forms. -/
abbrev Dict : Type := List (Str × Str)

/-- Embeds `k in d` on a Python dict: key membership. -/
def dhasKey (d : Dict) (k : Str) : Bool := d.any (fun p => p.1 = k)

/-- Embeds `d[k] = v` on a Python dict: update in place when the key exists,
append otherwise. -/
def dset (d : Dict) (k v : Str) : Dict :=
  if dhasKey d k then d.map (fun p => if p.1 = k then (p.1, v) else p)
  else d ++ [(k, v)]

/-- Embeds `d[k]` on a Python dict (as an `Option`): the value of the unique
entry whose key is `k`. -/
def dget : Dict → Str → Option Str
  | [], _ => none
  | p :: d, k => if p.1 = k then some p.2 else dget d k

/-- Embeds `d.values()` on a Python dict: values in key insertion order. -/
def dvalues (d : Dict) : List Str := d.map Prod.snd

/-- Embeds `d.keys()` on a Python dict: keys in insertion order. -/
def dkeys (d : Dict) : List Str := d.map Prod.fst

/-- A dict comprehension `{norm(l): l for l in ls}`: the bindings are
inserted left to right, so a later colliding label overwrites the value. -/
def dictOfLabels (norm : Str → Str) (ls : List Str) : Dict :=
  ls.foldl (fun d l => dset d (norm l) l) []

/-- The `BuiltinTaskWithLabels.__init__` label map (builtin_task.py:296-298):
`{self._normalizer(label): label for label in sorted(set(labels))}`. -/
def buildLabelDict (norm : Str → Str) (labels : List Str) : Dict :=
  dictOfLabels norm (pySortedSet labels)

/-- The `NERTask.__init__` label map (ner.py:123-125):
`{self._normalizer(label): label for label in labels.split(",")}` —
the comma-separated labels are neither sorted nor deduplicated. -/
def nerLabelDict (norm : Str → Str) (labels : Str) : Dict :=
  dictOfLabels norm (pySplitChar ',' labels)

/-! ## add_label and initialization (builtin_task.py) -/

/-- A dynamically typed Python value, as far as `add_label`'s
`isinstance(label, str)` check needs to distinguish it. -/
inductive PyVal where
  | pyStr (s : Str)
  | pyInt (n : Int)
  | pyNone
  deriving DecidableEq

/-- Embeds `BuiltinTaskWithLabels.add_label` (builtin_task.py:355-361): reject a
non-string label with `ValueError(Errors.E187)`; return 0 and leave the
map untouched when the label is already among the canonical values;
otherwise store `norm(label) -> label` and return 1. -/
def add_label (norm : Str → Str) (d : Dict) (v : PyVal) : Except Str (Int × Dict) :=
  match v with
  | .pyStr label =>
    if label ∈ dvalues d then .ok (0, d)
    else .ok (1, dset d (norm label) label)
  | _ => .error (strOf "E187")

/-- The per-example loop body of `BuiltinTaskWithLabels._initialize`
(builtin_task.py:332-338): when inferring, extend the label list from the
example; append a generated prompt example while under the cap. -/
def wlInitStep {Example Ex : Type} (extract : Example → List Str)
    (gen : Example → Ex) (inferLabels : Bool) (n : Int)
    (acc : List Str × List Ex) (eg : Example) : List Str × List Ex :=
  let labels := if inferLabels then acc.1 ++ extract eg else acc.1
  let exs :=
    if n < 0 ∨ acc.2.length < n then acc.2 ++ [gen eg] else acc.2
  (labels, exs)

/-- Embeds `BuiltinTaskWithLabels._initialize` (builtin_task.py:301-342): label
source precedence and prompt-example seeding.  Returns the new label map
and the new prompt-example list. -/
def wlInitialize {Example Ex : Type} (norm : Str → Str) (priorDict : Dict)
    (priorExamples : List Ex) (explicit : List Str) (egs : List Example)
    (extract : Example → List Str) (gen : Example → Ex) (n : Int) :
    Dict × List Ex :=
  let labels0 := if explicit = [] then dvalues priorDict else explicit
  let inferLabels := labels0 = []
  let labels1 := if inferLabels then [] else labels0
  let res := egs.foldl (wlInitStep extract gen inferLabels n) (labels1, priorExamples)
  (buildLabelDict norm res.1, res.2)

/-- Embeds `BuiltinTask._initialize` (builtin_task.py:110-128): append a prompt
example generated from each provided training example while the stored
count is below `n_prompt_examples`; any negative cap takes all. -/
def btInitialize {Example Ex : Type} (gen : Example → Ex)
    (priorExamples : List Ex) (egs : List Example) (n : Int) : List Ex :=
  egs.foldl
    (fun acc eg => if n < 0 ∨ acc.length < n then acc ++ [gen eg] else acc)
    priorExamples

/-! ## Overlap resolution

`NERTask.parse_responses` resolves overlaps with `spacy.util.filter_spans`
(ner.py:190), an external spaCy function not part of this repository. -/

/-- A candidate entity span over a document: character offsets and label. -/
structure SpanT where
  start : Nat
  stop : Nat
  label : Str
  deriving DecidableEq

/-- Length of a span. -/
def spanLen (s : SpanT) : Nat := s.stop - s.start

/-- Two spans overlap when their half-open offset ranges intersect. -/
def overlapB (a b : SpanT) : Bool :=
  decide (a.start < b.stop) && decide (b.start < a.stop)

/-- Insert into a list sorted by decreasing length, after strictly longer
spans and before spans of equal or smaller length (auxiliary to
`sortSpans`; makes the sort stable). -/
def insertSpanDesc (x : SpanT) : List SpanT → List SpanT
  | [] => [x]
  | y :: ys => if spanLen y ≤ spanLen x then x :: y :: ys else y :: insertSpanDesc x ys

/-- Stable sort of candidate spans by decreasing length: equal-length
spans keep their original discovery order. -/
def sortSpans (l : List SpanT) : List SpanT := l.foldr insertSpanDesc []

/-- Greedy acceptance: take each span in turn, keep it only when it
overlaps no already-accepted span. -/
def filterGreedy : List SpanT → List SpanT → List SpanT
  | acc, [] => acc
  | acc, s :: rest =>
    if acc.all (fun t => !overlapB s t) then filterGreedy (acc ++ [s]) rest
    else filterGreedy acc rest

/-- Modelled from the spec: `spacy.util.filter_spans` (overlap resolver),
an external spaCy dependency not under the repository sources.  Policy per
the spec: greedy longest-span-first acceptance, equal-length ties resolved
by original discovery order, any span overlapping an already-accepted span
discarded. -/
def filter_spans (spans : List SpanT) : List SpanT :=
  filterGreedy [] (sortSpans spans)

/-! ## find_substrings (ner.py:19-55)

The token-aligned matching itself is performed by spaCy's `PhraseMatcher`
(an external collaborator); a produced match is a character range together
with the document text it covers (`doc.char_span(start, end).text`).  The
`single_match` filtering is the repository's own code and is embedded
exactly. -/

/-- One `PhraseMatcher` match: offsets plus the covered document text. -/
structure MatchT where
  start : Nat
  stop : Nat
  text : Str
  deriving DecidableEq

/-- The deduplication key of `_filter_first_hit` (ner.py:41-44): the
covered text, lowercased unless matching case-sensitively. -/
def matchKey (caseSensitive : Bool) (m : MatchT) : Str :=
  if caseSensitive then m.text else pyLower m.text

/-- Embeds `_filter_first_hit` (ner.py:37-48) with its `seen_spans` accumulator:
keep a match only when its key has not been seen, recording each new key. -/
def filterFirstHitAux (cs : Bool) : List MatchT → List Str → List (Nat × Nat)
  | [], _ => []
  | m :: ms, seen =>
    if matchKey cs m ∈ seen then filterFirstHitAux cs ms seen
    else (m.start, m.stop) :: filterFirstHitAux cs ms (seen ++ [matchKey cs m])

/-- The offset selection of `find_substrings` (ner.py:50-55): dedupe by
first hit when `single_match` is set, otherwise keep every match. -/
def find_substrings_offsets (cs singleMatch : Bool) (ms : List MatchT) :
    List (Nat × Nat) :=
  if singleMatch then filterFirstHitAux cs ms []
  else ms.map (fun m => (m.start, m.stop))

/-- Specification-side reformulation of first-hit filtering: keep the head
match and drop every later match with the same key, recursively. -/
def firstHitSpec (key : MatchT → Str) : List MatchT → List (Nat × Nat)
  | [] => []
  | m :: ms =>
    (m.start, m.stop) ::
      firstHitSpec key (ms.filter (fun m2 => key m2 ≠ key m))
  termination_by ms => ms.length
  decreasing_by
    simp only [List.length_cons]
    exact Nat.lt_succ_of_le (List.length_filter_le _ _)

/-! ## NER response parsing (ner.py:152-191) -/

/-- A document as the NER task sees it: its text and its entity spans. -/
structure NerDoc where
  text : Str
  ents : List SpanT
  deriving DecidableEq

/-- One line of `NERTask._format_response` (ner.py:156-166): require a
nonempty line containing a colon, split at the first colon, normalize the
label, require it to be a key of the label map, require a nonempty phrase
part, and emit the canonical label with the comma-split stripped phrases. -/
def processLine (norm : Str → Str) (ld : Dict) (line : Str) :
    List (Str × List Str) :=
  if line = [] then []
  else
    match pySplit1 ':' line with
    | none => []
    | some (label, phrases) =>
      match dget ld (norm label) with
      | none => []
      | some canonical =>
        if pyStrip phrases = [] then []
        else [(canonical, (pySplitChar ',' (pyStrip phrases)).map pyStrip)]

/-- Embeds `NERTask._format_response` (ner.py:152-167): process each line of the
stripped response. -/
def format_response (norm : Str → Str) (ld : Dict) (response : Str) :
    List (Str × List Str) :=
  ((pySplitChar '\n' (pyStrip response)).map (processLine norm ld)).flatten

/-- The span construction of `NERTask.parse_responses` for one document
(ner.py:173-190).  `finder` abstracts `find_substrings` applied to the
document text (spaCy `PhraseMatcher`, external) and `charSpan` abstracts
`doc.char_span` under the configured alignment mode (external); a phrase
the collaborators cannot place is dropped.  The produced spans carry the
canonical label and are resolved by `filter_spans`. -/
def nerParseDoc (finder : Str → List Str → List (Nat × Nat))
    (charSpan : Str → Nat → Nat → Option (Nat × Nat))
    (norm : Str → Str) (ld : Dict) (doc : NerDoc) (response : Str) : NerDoc :=
  let spans :=
    (format_response norm ld response).flatMap
      (fun lp =>
        (finder doc.text lp.2).filterMap
          (fun off =>
            (charSpan doc.text off.1 off.2).map
              (fun off2 => SpanT.mk off2.1 off2.2 lp.1)))
  { doc with ents := filter_spans spans }

/-- Python's `for a, b in zip(xs, ys)` loop collecting `f a b`: iteration
stops at the end of the shorter sequence. -/
def zipMapPy {α β γ : Type} (f : α → β → γ) : List α → List β → List γ
  | a :: as_, b :: bs => f a b :: zipMapPy f as_ bs
  | _, _ => []

/-- Embeds `NERTask.parse_responses` (ner.py:169-191): pair docs with responses
via `zip` and annotate each pair. -/
def nerParseResponses (finder : Str → List Str → List (Nat × Nat))
    (charSpan : Str → Nat → Nat → Option (Nat × Nat))
    (norm : Str → Str) (ld : Dict)
    (docs : List NerDoc) (responses : List Str) : List NerDoc :=
  zipMapPy (nerParseDoc finder charSpan norm ld) docs responses

/-- A document as the summarization task sees it: text plus the summary
extension field. -/
structure SumDoc where
  text : Str
  summary : Option Str
  deriving DecidableEq

/-- Embeds `SummarizationTask.parse_responses` (summarization/task.py:94-99):
zip the docs with the summaries produced by the injected response parser
and store each summary on its doc. -/
def sumParseResponses (parser : List SumDoc → List Str → List Str)
    (docs : List SumDoc) (responses : List Str) : List SumDoc :=
  zipMapPy (fun doc summary => { doc with summary := some summary })
    docs (parser docs responses)

/-! ## Entity-linking candidate selection (candidate_selector.py) -/

/-- A knowledge-base candidate: entity identifier and prior probability
(`cand.entity_`, `cand.prior_prob`). -/
structure Candidate where
  entity_ : Str
  prior_prob : ℚ
  deriving DecidableEq

/-- A candidate entity as passed to the prompt (`Entity(id, description)`). -/
structure EntityT where
  id : Str
  description : Str
  deriving DecidableEq

/-- Modelled from the spec: `spacy.pipeline.EntityLinker.NIL`, the
reserved sentinel identifier for "no identifiable referent" (external
spaCy constant). -/
def NIL : Str := strOf "NIL"

/-- Modelled from the spec: `spacy_llm.tasks.entity_linker.util.
UNAVAILABLE_ENTITY_DESC`, the fixed placeholder description (the module
defining it is not among the provided sources). -/
def UNAVAILABLE_ENTITY_DESC : Str := strOf "This entity has no description."

/-- Insert into a list sorted by decreasing prior probability, after
strictly more probable candidates and before candidates of equal or lower
probability (auxiliary to `sortCandsDesc`; makes the sort stable). -/
def insertCandDesc (x : Candidate) : List Candidate → List Candidate
  | [] => [x]
  | y :: ys =>
    if y.prior_prob ≤ x.prior_prob then x :: y :: ys
    else y :: insertCandDesc x ys

/-- Embeds `cands.sort(key=lambda x: x.prior_prob, reverse=True)`
(candidate_selector.py:52): stable descending sort by prior probability. -/
def sortCandsDesc (l : List Candidate) : List Candidate :=
  l.foldr insertCandDesc []

/-- Python slice `xs[:n]` for an `int` bound `n`: the first `n` elements
when `n >= 0`, all but the last `|n|` when `n < 0` (clamped at empty). -/
def pyTakeSlice {α : Type} (n : Int) (xs : List α) : List α :=
  if 0 ≤ n then xs.take n.toNat else xs.take (xs.length - n.natAbs)

/-- Embeds `PipelineCandidateSelector.get_entity_description`
(candidate_selector.py:67-79): `self._descs.get(entity_id,
UNAVAILABLE_ENTITY_DESC)` — a missing id yields the placeholder (the
warning is a side effect with no bearing on the value). -/
def get_entity_description (descs : Str → Option Str) (entity_id : Str) : Str :=
  (descs entity_id).getD UNAVAILABLE_ENTITY_DESC

/-- Embeds `PipelineCandidateSelector.__call__` (candidate_selector.py:44-65):
sort each mention's retrieved candidates by descending prior probability,
then truncate to `top_n` and attach descriptions; a mention with an empty
retrieved list yields the single NIL sentinel instead. -/
def selectorCall (descs : Str → Option Str) (top_n : Int)
    (all_cands : List (List Candidate)) : List (List EntityT) :=
  (all_cands.map sortCandsDesc).map
    (fun cands =>
      if cands.length > 0 then
        (pyTakeSlice top_n cands).map
          (fun c => EntityT.mk c.entity_ (get_entity_description descs c.entity_))
      else [EntityT.mk NIL UNAVAILABLE_ENTITY_DESC])

/-! ## Task serialization (builtin_task.py:130-192)

`get_cfg` reads the attributes named by `_cfg_keys`; `set_cfg` writes
attributes back one by one.  The channel plumbing (`spacy.util.to_bytes` /
`from_bytes`) and the byte encoders (`srsly`) are external dependencies;
per the spec the exclude set must be honored identically on save and load,
so the blob is modelled as the two optional channels, with the encoders —
faithful inverse pairs — elided. -/

/-- The serializable state of a task: an attribute store, the attribute
names listed by `_cfg_keys`, and the stored prompt examples (kept
abstract as their serialized records). -/
structure TaskStateM where
  attrs : Str → Str
  cfgKeys : List Str
  examples : List Str

/-- Embeds `BuiltinTask.get_cfg` (builtin_task.py:130-133):
`{key: getattr(self, key) for key in self._cfg_keys}`. -/
def get_cfg (s : TaskStateM) : List (Str × Str) :=
  s.cfgKeys.map (fun k => (k, s.attrs k))

/-- Embeds `BuiltinTask.set_cfg` (builtin_task.py:135-140): `setattr` for each
entry in turn. -/
def set_cfg (s : TaskStateM) (cfg : List (Str × Str)) : TaskStateM :=
  { s with
    attrs := cfg.foldl (fun f kv => fun k2 => if k2 = kv.1 then kv.2 else f k2) s.attrs }

/-- Modelled from the spec: the serialized blob written by
`spacy.util.to_bytes` — one optional channel per serializer key, a channel
present exactly when its key is not excluded. -/
structure TaskBlob where
  cfgField : Option (List (Str × Str))
  examplesField : Option (List Str)

/-- Embeds `BuiltinTask.to_bytes` (builtin_task.py:155-170): serialize the `cfg`
and `prompt_examples` channels, honoring the exclude set. -/
def to_bytes (s : TaskStateM) (exclude : List Str) : TaskBlob :=
  { cfgField := if strOf "cfg" ∈ exclude then none else some (get_cfg s),
    examplesField :=
      if strOf "prompt_examples" ∈ exclude then none else some s.examples }

/-- Embeds `BuiltinTask.from_bytes` (builtin_task.py:172-192): apply each
channel's deserializer when the key is not excluded and the channel is
present in the blob. -/
def from_bytes (s : TaskStateM) (b : TaskBlob) (exclude : List Str) : TaskStateM :=
  let s1 :=
    if strOf "cfg" ∈ exclude then s
    else
      match b.cfgField with
      | some c => set_cfg s c
      | none => s
  if strOf "prompt_examples" ∈ exclude then s1
  else
    match b.examplesField with
    | some e => { s1 with examples := e }
    | none => s1

/-! ## Helper lemmas -/

theorem zipMapPy_eq_zipWith {α β γ : Type} (f : α → β → γ) :
    ∀ (as_ : List α) (bs : List β), zipMapPy f as_ bs = List.zipWith f as_ bs
  | [], [] => rfl
  | [], _ :: _ => rfl
  | _ :: _, [] => rfl
  | a :: as_, b :: bs => by
    simp only [zipMapPy, List.zipWith_cons_cons, zipMapPy_eq_zipWith f as_ bs]

theorem btInitialize_le_max {Example Ex : Type} (gen : Example → Ex) (n : Int)
    (hn : 0 ≤ n) :
    ∀ (egs : List Example) (prior : List Ex),
      (btInitialize gen prior egs n).length ≤ max prior.length n.toNat := by
  intro egs
  induction egs with
  | nil => intro prior; simp [btInitialize]
  | cons eg egs ih =>
    intro prior
    show (btInitialize gen _ (eg :: egs) n).length ≤ _
    simp only [btInitialize, List.foldl_cons]
    by_cases hc : n < 0 ∨ prior.length < n
    · rw [if_pos hc]
      have hlt : prior.length < n.toNat := by omega
      have := ih (prior ++ [gen eg])
      simp only [btInitialize] at this
      calc (List.foldl _ (prior ++ [gen eg]) egs).length
          ≤ max (prior ++ [gen eg]).length n.toNat := this
        _ ≤ max prior.length n.toNat := by
            simp only [List.length_append, List.length_cons, List.length_nil]
            omega
    · rw [if_neg hc]
      exact ih prior

theorem btInitialize_neg {Example Ex : Type} (gen : Example → Ex) (n : Int)
    (hn : n < 0) :
    ∀ (egs : List Example) (prior : List Ex),
      btInitialize gen prior egs n = prior ++ egs.map gen := by
  intro egs
  induction egs with
  | nil => intro prior; simp [btInitialize]
  | cons eg egs ih =>
    intro prior
    have hstep : btInitialize gen prior (eg :: egs) n =
        btInitialize gen (prior ++ [gen eg]) egs n := by
      simp only [btInitialize, List.foldl_cons]
      rw [if_pos (Or.inl hn)]
    rw [hstep, ih (prior ++ [gen eg])]
    simp [List.append_assoc]

theorem filterFirstHitAux_eq_spec (cs : Bool) :
    ∀ (ms : List MatchT) (seen : List Str),
      filterFirstHitAux cs ms seen =
        firstHitSpec (matchKey cs) (ms.filter (fun m => matchKey cs m ∉ seen)) := by
  intro ms
  induction ms with
  | nil => intro seen; simp [filterFirstHitAux, firstHitSpec]
  | cons m ms ih =>
    intro seen
    by_cases hmem : matchKey cs m ∈ seen
    · simp only [filterFirstHitAux, if_pos hmem, List.filter_cons]
      rw [if_neg (by simpa using hmem)]
      exact ih seen
    · simp only [filterFirstHitAux, if_neg hmem, List.filter_cons]
      rw [if_pos (by simpa using hmem)]
      rw [firstHitSpec]
      rw [ih (seen ++ [matchKey cs m])]
      congr 1
      rw [List.filter_filter]
      apply congrArg
      apply List.filter_congr
      intro a _
      by_cases h1 : matchKey cs a = matchKey cs m <;>
        by_cases h2 : matchKey cs a ∈ seen <;>
        simp [h1, h2]

/-! ## Claim C1 -/

/-- C1 (amended): `parse_responses` pairs docs with responses strictly
positionally via `zip`, for both `NERTask` and `SummarizationTask`; a
length mismatch is not detected — iteration stops at the shorter sequence,
so surplus items are silently dropped and the output has the minimum of
the two lengths. -/
theorem C1_parse_responses_zip_truncates
    (finder : Str → List Str → List (Nat × Nat))
    (charSpan : Str → Nat → Nat → Option (Nat × Nat))
    (norm : Str → Str) (ld : Dict) (docs : List NerDoc) (responses : List Str)
    (parser : List SumDoc → List Str → List Str)
    (sdocs : List SumDoc) (sresponses : List Str) :
    nerParseResponses finder charSpan norm ld docs responses =
      List.zipWith (nerParseDoc finder charSpan norm ld) docs responses ∧
    (nerParseResponses finder charSpan norm ld docs responses).length =
      min docs.length responses.length ∧
    sumParseResponses parser sdocs sresponses =
      List.zipWith (fun doc summary => { doc with summary := some summary })
        sdocs (parser sdocs sresponses) ∧
    (sumParseResponses parser sdocs sresponses).length =
      min sdocs.length (parser sdocs sresponses).length := by
  refine ⟨zipMapPy_eq_zipWith _ docs responses, ?_,
    zipMapPy_eq_zipWith _ sdocs (parser sdocs sresponses), ?_⟩
  · rw [nerParseResponses, zipMapPy_eq_zipWith]
    exact List.length_zipWith ..
  · rw [sumParseResponses, zipMapPy_eq_zipWith]
    exact List.length_zipWith ..

/-- C1 (counterexample): calling `NERTask.parse_responses` with two docs
and one response does not fail — it returns normally, with the second doc
silently dropped, contradicting "fails immediately with a fatal error"
and "never silently truncated". -/
theorem C1_mismatch_not_fatal :
    nerParseResponses (fun _ _ => []) (fun _ _ _ => none) id []
        [NerDoc.mk (strOf "a") [], NerDoc.mk (strOf "b") []] [strOf "X"] =
      [NerDoc.mk (strOf "a") []] ∧
    [NerDoc.mk (strOf "a") [], NerDoc.mk (strOf "b") []].length = 2 ∧
    [strOf "X"].length = 1 := by
  decide

/-! ## Claim C3 -/

/-- C3: with `single_match` disabled, `find_substrings` keeps every match
of every phrase; with `single_match` enabled it keeps, in first-seen
order, only the first occurrence of each case-normalized matched text
value (a later match whose normalized text repeats an earlier one is
dropped, regardless of which phrase produced it — the dedup key is the
matched text alone). -/
theorem C3_find_substrings_single_match (cs : Bool) (ms : List MatchT) :
    find_substrings_offsets cs false ms = ms.map (fun m => (m.start, m.stop)) ∧
    find_substrings_offsets cs true ms = firstHitSpec (matchKey cs) ms := by
  constructor
  · simp [find_substrings_offsets]
  · rw [find_substrings_offsets, if_pos rfl, filterFirstHitAux_eq_spec]
    congr 1
    apply List.filter_eq_self.mpr
    intro a _
    simp

/-! ## Claim C9 -/

/-- C9 (counterexample): a task constructed with two prompt examples and
then initialized with cap 1 ends up storing two examples — the stored
count exceeds the cap when examples were already present, contradicting
"the stored prompt-example count never exceeds n after initialization". -/
theorem C9_prior_examples_exceed_cap :
    (btInitialize (id : Nat → Nat) [10, 20] [30] 1).length = 2 ∧
    ¬ (btInitialize (id : Nat → Nat) [10, 20] [30] 1).length ≤ 1 := by
  decide

/-- C9 (amended): initialization appends a prompt example only while the
stored count is below the cap `n ≥ 0`, so the final count never exceeds
the larger of the cap and the pre-initialization count (examples already
present are never removed, so a pre-existing count above the cap
persists); any negative cap (in particular −1) appends every provided
training example. -/
theorem C9_cap_bound {Example Ex : Type} (gen : Example → Ex)
    (prior : List Ex) (egs : List Example) (n : Int) :
    (0 ≤ n → (btInitialize gen prior egs n).length ≤ max prior.length n.toNat) ∧
    (n < 0 → btInitialize gen prior egs n = prior ++ egs.map gen) := by
  exact ⟨fun hn => btInitialize_le_max gen n hn egs prior,
    fun hn => btInitialize_neg gen n hn egs prior⟩

/-- C9 (witness): concrete instances of both parts of the amended cap
theorem. -/
theorem C9_cap_bound_w :
    (btInitialize (id : Nat → Nat) [] [1, 2] 1).length ≤
      max ([] : List Nat).length (1 : Int).toNat ∧
    btInitialize (id : Nat → Nat) [7] [1, 2] (-1) = [7] ++ [1, 2].map id :=
  ⟨(C9_cap_bound id [] [1, 2] 1).1 (by decide),
   (C9_cap_bound id [7] [1, 2] (-1)).2 (by decide)⟩

/-! ## Dict lemmas -/

theorem dset_cons_ne (p : Str × Str) (d : Dict) (k v : Str) (h : p.1 ≠ k) :
    dset (p :: d) k v = p :: dset d k v := by
  simp only [dset, dhasKey, List.any_cons, decide_eq_true_eq]
  by_cases hd : d.any (fun q => decide (q.1 = k)) = true
  · rw [if_pos (by simp [hd]), if_pos (by simpa using hd)]
    simp [List.map_cons, if_neg h]
  · rw [if_neg (by simp [h]; simpa using hd), if_neg (by simpa using hd)]
    simp

theorem dget_dset_self (d : Dict) (k v : Str) : dget (dset d k v) k = some v := by
  induction d with
  | nil => simp [dset, dhasKey, dget]
  | cons p d ih =>
    by_cases hp : p.1 = k
    · have hkey : dhasKey (p :: d) k = true := by
        simp [dhasKey, List.any_cons]
        exact Or.inl hp
      simp [dset, hkey, List.map_cons, dget, hp]
    · rw [dset_cons_ne p d k v hp]
      simp only [dget, if_neg hp]
      exact ih

theorem dget_map_update_ne (d : Dict) (k v k' : Str) (h : k' ≠ k) :
    dget (d.map (fun q => if q.1 = k then (q.1, v) else q)) k' = dget d k' := by
  induction d with
  | nil => rfl
  | cons q d ih =>
    simp only [List.map_cons]
    by_cases hq : q.1 = k
    · have hne : q.1 ≠ k' := fun hh => h (hh ▸ hq)
      rw [if_pos hq]
      simp only [dget, if_neg hne]
      exact ih
    · rw [if_neg hq]
      simp only [dget]
      by_cases hq' : q.1 = k'
      · simp [hq']
      · simp only [if_neg hq']
        exact ih

theorem dget_append_single_ne (d : Dict) (k v k' : Str) (h : k' ≠ k) :
    dget (d ++ [(k, v)]) k' = dget d k' := by
  induction d with
  | nil =>
    show dget [(k, v)] k' = dget [] k'
    simp [dget, Ne.symm h]
  | cons q d ih =>
    simp only [List.cons_append, dget]
    by_cases hq : q.1 = k' <;> simp [hq, ih]

theorem dget_dset_ne (d : Dict) (k v k' : Str) (h : k' ≠ k) :
    dget (dset d k v) k' = dget d k' := by
  unfold dset
  by_cases hd : dhasKey d k = true
  · rw [if_pos hd]
    exact dget_map_update_ne d k v k' h
  · rw [if_neg hd]
    exact dget_append_single_ne d k v k' h

theorem dkeys_dset (d : Dict) (k v : Str) :
    dkeys (dset d k v) = if dhasKey d k then dkeys d else dkeys d ++ [k] := by
  unfold dset
  by_cases hd : dhasKey d k = true
  · rw [if_pos hd, if_pos hd]
    simp only [dkeys, List.map_map]
    apply List.map_congr_left
    intro q _
    by_cases hq : q.1 = k <;> simp [hq]
  · rw [if_neg hd, if_neg hd]
    simp [dkeys]

theorem not_mem_dkeys_of_not_dhasKey (d : Dict) (k : Str)
    (h : ¬ dhasKey d k = true) : k ∉ dkeys d := by
  intro hk
  apply h
  simp only [dkeys, List.mem_map] at hk
  obtain ⟨p, hp, hpk⟩ := hk
  simp only [dhasKey, List.any_eq_true]
  exact ⟨p, hp, by simp [hpk]⟩

theorem nodup_dkeys_dset (d : Dict) (k v : Str) (h : (dkeys d).Nodup) :
    (dkeys (dset d k v)).Nodup := by
  rw [dkeys_dset]
  by_cases hd : dhasKey d k = true
  · rw [if_pos hd]; exact h
  · rw [if_neg hd]
    rw [List.nodup_append]
    exact ⟨h, List.nodup_singleton k,
      by simp [List.disjoint_singleton]; exact not_mem_dkeys_of_not_dhasKey d k hd⟩

theorem nodup_dkeys_foldl_dset (norm : Str → Str) :
    ∀ (ls : List Str) (d0 : Dict), (dkeys d0).Nodup →
      (dkeys (ls.foldl (fun d l => dset d (norm l) l) d0)).Nodup := by
  intro ls
  induction ls with
  | nil => intro d0 h; exact h
  | cons l ls ih =>
    intro d0 h
    simp only [List.foldl_cons]
    exact ih _ (nodup_dkeys_dset d0 (norm l) l h)

theorem dget_foldl_dset (norm : Str → Str) :
    ∀ (ls : List Str) (d0 : Dict) (k : Str),
      dget (ls.foldl (fun d l => dset d (norm l) l) d0) k =
        (ls.reverse.find? (fun l => norm l = k)).orElse (fun _ => dget d0 k) := by
  intro ls
  induction ls with
  | nil =>
    intro d0 k
    simp [Option.orElse]
  | cons l ls ih =>
    intro d0 k
    simp only [List.foldl_cons, List.reverse_cons]
    rw [ih, List.find?_append]
    cases hfind : ls.reverse.find? (fun l => decide (norm l = k)) with
    | some v => simp [Option.orElse, Option.or, hfind]
    | none =>
      by_cases hl : norm l = k
      · have h1 : [l].find? (fun l2 => decide (norm l2 = k)) = some l := by
          simp [List.find?, hl]
        have h2 : dget (dset d0 (norm l) l) k = some l := by
          rw [← hl]; exact dget_dset_self d0 (norm l) l
        simp [Option.orElse, Option.or, hfind, h1, h2]
      · have h1 : [l].find? (fun l2 => decide (norm l2 = k)) = none := by
          simp [List.find?, hl]
        have h2 : dget (dset d0 (norm l) l) k = dget d0 k :=
          dget_dset_ne d0 (norm l) l k (fun hh => hl hh.symm)
        simp [Option.orElse, Option.or, hfind, h1, h2]

theorem dget_dictOfLabels (norm : Str → Str) (ls : List Str) (k : Str) :
    dget (dictOfLabels norm ls) k = ls.reverse.find? (fun l => norm l = k) := by
  rw [dictOfLabels, dget_foldl_dset]
  cases hfind : ls.reverse.find? (fun l => decide (norm l = k)) with
  | some v => simp [Option.orElse, hfind]
  | none => simp [Option.orElse, hfind, dget]

/-! ## Claim C5 -/

/-- C5 (counterexample): the NER v1 label map is built from the raw
comma-split label string, not from `sorted(set(labels))`.  For the label
string `"per,PER"` under the default lowercase normalizer the stored
canonical form for key `"per"` is `"PER"` — the later label in the
*supplied* order — while the later label in *sorted* order is `"per"`. -/
theorem C5_ner_collision_not_sorted :
    dget (nerLabelDict pyLower (strOf "per,PER")) (strOf "per") =
      some (strOf "PER") ∧
    (pySortedSet (pySplitChar ',' (strOf "per,PER"))).reverse.find?
        (fun l => pyLower l = strOf "per") = some (strOf "per") ∧
    strOf "PER" ≠ strOf "per" := by
  decide

/-- C5 (amended): in both label-map builders the keys are unique after
normalization, and a normalized key maps to the label that comes last in
the order the builder iterates: `BuiltinTaskWithLabels` iterates
`sorted(set(labels))`, so a collision stores the later label in sorted
order; `NERTask` (v1) iterates the comma-split label string as given, so
a collision stores the later label in the supplied order (which need not
be the later one in sorted order). -/
theorem C5_label_dict_collision (norm : Str → Str) (labels : List Str)
    (labelStr : Str) (k : Str) :
    (dkeys (buildLabelDict norm labels)).Nodup ∧
    dget (buildLabelDict norm labels) k =
      (pySortedSet labels).reverse.find? (fun l => norm l = k) ∧
    (dkeys (nerLabelDict norm labelStr)).Nodup ∧
    dget (nerLabelDict norm labelStr) k =
      (pySplitChar ',' labelStr).reverse.find? (fun l => norm l = k) :=
  ⟨nodup_dkeys_foldl_dset norm (pySortedSet labels) [] List.nodup_nil,
   dget_dictOfLabels norm (pySortedSet labels) k,
   nodup_dkeys_foldl_dset norm (pySplitChar ',' labelStr) [] List.nodup_nil,
   dget_dictOfLabels norm (pySplitChar ',' labelStr) k⟩

/-! ## Claim C6 -/

/-- C6: `add_label` raises `ValueError(E187)` for every non-string input;
for a label already among the canonical values it returns 0 and leaves
the label map untouched; for a label not yet present it returns 1 and
stores the binding `norm(label) -> label`. -/
theorem C6_add_label (norm : Str → Str) (d : Dict) (v : PyVal) :
    ((∀ s, v ≠ PyVal.pyStr s) → add_label norm d v = .error (strOf "E187")) ∧
    (∀ s, v = PyVal.pyStr s → s ∈ dvalues d →
      add_label norm d v = .ok (0, d)) ∧
    (∀ s, v = PyVal.pyStr s → s ∉ dvalues d →
      add_label norm d v = .ok (1, dset d (norm s) s) ∧
      dget (dset d (norm s) s) (norm s) = some s) := by
  refine ⟨?_, ?_, ?_⟩
  · intro h
    cases v with
    | pyStr s => exact absurd rfl (h s)
    | pyInt n => rfl
    | pyNone => rfl
  · rintro s rfl hs
    simp [add_label, hs]
  · rintro s rfl hs
    exact ⟨by simp [add_label, hs], dget_dset_self d (norm s) s⟩

/-- C6 (witness): the three behaviours at concrete inputs — an integer is
rejected, an existing canonical label is a 0-returning no-op, a new label
is stored and returns 1. -/
theorem C6_add_label_w :
    add_label pyLower [(strOf "per", strOf "PER")] (PyVal.pyInt 3) =
      .error (strOf "E187") ∧
    add_label pyLower [(strOf "per", strOf "PER")] (PyVal.pyStr (strOf "PER")) =
      .ok (0, [(strOf "per", strOf "PER")]) ∧
    add_label pyLower [(strOf "per", strOf "PER")] (PyVal.pyStr (strOf "LOC")) =
      .ok (1, dset [(strOf "per", strOf "PER")]
        (pyLower (strOf "LOC")) (strOf "LOC")) :=
  ⟨(C6_add_label pyLower [(strOf "per", strOf "PER")] (PyVal.pyInt 3)).1
      (fun s h => PyVal.noConfusion h),
   (C6_add_label pyLower [(strOf "per", strOf "PER")]
      (PyVal.pyStr (strOf "PER"))).2.1 (strOf "PER") rfl (by decide),
   ((C6_add_label pyLower [(strOf "per", strOf "PER")]
      (PyVal.pyStr (strOf "LOC"))).2.2 (strOf "LOC") rfl (by decide)).1⟩

/-! ## Claim C7 -/

theorem wlInitFold_labels {Example Ex : Type} (extract : Example → List Str)
    (gen : Example → Ex) (infer : Bool) (n : Int) :
    ∀ (egs : List Example) (acc : List Str × List Ex),
      (egs.foldl (wlInitStep extract gen infer n) acc).1 =
        (if infer then acc.1 ++ (egs.map extract).flatten else acc.1) := by
  intro egs
  induction egs with
  | nil => intro acc; cases infer <;> simp
  | cons eg egs ih =>
    intro acc
    simp only [List.foldl_cons]
    rw [ih]
    cases infer <;> simp [wlInitStep, List.append_assoc]

/-- C7: the label set stored by `_initialize` follows the precedence
"non-empty explicit labels > previously configured labels > labels
extracted from the training examples": the examples contribute labels
only when both the explicit list and the prior label map are empty. -/
theorem C7_label_precedence {Example Ex : Type} (norm : Str → Str)
    (priorDict : Dict) (priorExamples : List Ex) (explicit : List Str)
    (egs : List Example) (extract : Example → List Str) (gen : Example → Ex)
    (n : Int) :
    (wlInitialize norm priorDict priorExamples explicit egs extract gen n).1 =
      buildLabelDict norm
        (if explicit ≠ [] then explicit
         else if dvalues priorDict ≠ [] then dvalues priorDict
         else (egs.map extract).flatten) := by
  unfold wlInitialize
  simp only [wlInitFold_labels]
  by_cases h1 : explicit = []
  · by_cases h2 : dvalues priorDict = []
    · simp [h1, h2]
    · simp [h1, h2]
  · simp [h1]

/-! ## Claim C4 -/

theorem overlapB_symm (a b : SpanT) : overlapB a b = overlapB b a := by
  simp [overlapB, Bool.and_comm]

theorem filterGreedy_pairwise :
    ∀ (rest acc : List SpanT),
      acc.Pairwise (fun a b => overlapB a b = false) →
      (filterGreedy acc rest).Pairwise (fun a b => overlapB a b = false) := by
  intro rest
  induction rest with
  | nil => intro acc h; exact h
  | cons s rest ih =>
    intro acc h
    by_cases hall : acc.all (fun t => !overlapB s t) = true
    · rw [filterGreedy, if_pos hall]
      apply ih
      rw [List.pairwise_append]
      refine ⟨h, List.pairwise_singleton _ _, ?_⟩
      intro a ha b hb
      rw [List.mem_singleton] at hb
      subst hb
      have := List.all_eq_true.mp hall a ha
      rw [overlapB_symm]
      simpa using this
    · rw [filterGreedy, if_neg hall]
      exact ih acc h

theorem filter_spans_pair_longer (s1 s2 : SpanT)
    (hstart : s1.start = s2.start) (hne : s2.start < s2.stop)
    (hlt : spanLen s2 < spanLen s1) :
    filter_spans [s1, s2] = [s1] ∧ filter_spans [s2, s1] = [s1] := by
  have hle : spanLen s2 ≤ spanLen s1 := le_of_lt hlt
  have hnle : ¬ spanLen s1 ≤ spanLen s2 := not_le_of_lt hlt
  have hov : overlapB s2 s1 = true := by
    simp only [overlapB, Bool.and_eq_true, decide_eq_true_eq]
    simp only [spanLen] at hlt
    omega
  have hgreedy : filterGreedy [] [s1, s2] = [s1] := by
    simp [filterGreedy, List.all_cons, hov]
  constructor
  · have hsort : sortSpans [s1, s2] = [s1, s2] := by
      simp [sortSpans, insertSpanDesc, hle]
    rw [filter_spans, hsort, hgreedy]
  · have hsort : sortSpans [s2, s1] = [s1, s2] := by
      simp [sortSpans, insertSpanDesc, hnle]
    rw [filter_spans, hsort, hgreedy]

/-- C4: the output of the overlap resolver is always pairwise
non-overlapping, and of two candidate spans at the same start offset (the
shorter nonempty), exactly the longer one survives, in either discovery
order.  The resolver itself — greedy longest-first acceptance with
equal-length ties kept in discovery order — is `filter_spans`, modelled
from the spec because `spacy.util.filter_spans` is an external
dependency. -/
theorem C4_filter_spans (spans : List SpanT) (s1 s2 : SpanT) :
    (filter_spans spans).Pairwise (fun a b => overlapB a b = false) ∧
    (s1.start = s2.start → s2.start < s2.stop → spanLen s2 < spanLen s1 →
      filter_spans [s1, s2] = [s1] ∧ filter_spans [s2, s1] = [s1]) :=
  ⟨filterGreedy_pairwise (sortSpans spans) [] List.Pairwise.nil,
   fun h1 h2 h3 => filter_spans_pair_longer s1 s2 h1 h2 h3⟩

/-- C4 (witness): on the spec's example — a longer and a shorter span at
the same start offset — only the longer span survives, and the output is
pairwise non-overlapping. -/
theorem C4_filter_spans_w :
    (filter_spans [SpanT.mk 0 3 (strOf "ORG"), SpanT.mk 0 2 (strOf "GPE")]).Pairwise
      (fun a b => overlapB a b = false) ∧
    filter_spans [SpanT.mk 0 3 (strOf "ORG"), SpanT.mk 0 2 (strOf "GPE")] =
      [SpanT.mk 0 3 (strOf "ORG")] :=
  ⟨(C4_filter_spans [SpanT.mk 0 3 (strOf "ORG"), SpanT.mk 0 2 (strOf "GPE")]
      (SpanT.mk 0 3 (strOf "ORG")) (SpanT.mk 0 2 (strOf "GPE"))).1,
   ((C4_filter_spans [SpanT.mk 0 3 (strOf "ORG"), SpanT.mk 0 2 (strOf "GPE")]
      (SpanT.mk 0 3 (strOf "ORG")) (SpanT.mk 0 2 (strOf "GPE"))).2
      (by decide) (by decide) (by decide)).1⟩

/-! ## Claim C2 -/

theorem insertCandDesc_length (x : Candidate) :
    ∀ l, (insertCandDesc x l).length = l.length + 1 := by
  intro l
  induction l with
  | nil => rfl
  | cons y ys ih =>
    simp only [insertCandDesc]
    by_cases h : y.prior_prob ≤ x.prior_prob
    · rw [if_pos h]; simp
    · rw [if_neg h]; simp [ih]

theorem sortCandsDesc_length (l : List Candidate) :
    (sortCandsDesc l).length = l.length := by
  induction l with
  | nil => rfl
  | cons x xs ih =>
    simp only [sortCandsDesc, List.foldr_cons] at *
    rw [insertCandDesc_length, ih, List.length_cons]

theorem pyTakeSlice_ne_nil {α : Type} (n : Int) (hn : 1 ≤ n) (xs : List α)
    (hxs : xs ≠ []) : pyTakeSlice n xs ≠ [] := by
  rw [pyTakeSlice, if_pos (by omega)]
  match xs, hxs with
  | y :: ys, _ =>
    have hsucc : n.toNat = n.toNat - 1 + 1 := by omega
    rw [hsucc, List.take_succ_cons]
    simp

/-- C2 (counterexample): with configured `top_n = 0` the slice
`cands[:top_n]` empties the candidate list of a mention that did retrieve
a candidate — the sentinel branch fires only when the retrieved list is
empty — so the mention yields zero candidates, contradicting "every
mention yields at least one candidate ... for every configured top-N
value". -/
theorem C2_top_n_zero_empty :
    selectorCall (fun _ => none) 0 [[Candidate.mk (strOf "Q1") 1]] = [[]] ∧
    ([] : List EntityT) ≠ [EntityT.mk NIL UNAVAILABLE_ENTITY_DESC] := by
  decide

/-- C2 (amended): for every configured `top_n ≥ 1`, every mention in the
batch yields at least one candidate; a mention whose retrieved candidate
list is empty yields exactly one sentinel entity with the reserved NIL
identifier and the fixed placeholder description. -/
theorem C2_selector_nonempty (descs : Str → Option Str) (top_n : Int)
    (all_cands : List (List Candidate)) (h : 1 ≤ top_n) :
    List.Forall₂
      (fun cands out =>
        (cands = [] → out = [EntityT.mk NIL UNAVAILABLE_ENTITY_DESC]) ∧ out ≠ [])
      all_cands (selectorCall descs top_n all_cands) := by
  induction all_cands with
  | nil => exact List.Forall₂.nil
  | cons cands rest ih =>
    have hunf : selectorCall descs top_n (cands :: rest) =
        (if (sortCandsDesc cands).length > 0 then
          (pyTakeSlice top_n (sortCandsDesc cands)).map
            (fun c => EntityT.mk c.entity_ (get_entity_description descs c.entity_))
        else [EntityT.mk NIL UNAVAILABLE_ENTITY_DESC]) ::
          selectorCall descs top_n rest := by
      simp [selectorCall]
    rw [hunf]
    refine List.Forall₂.cons ⟨?_, ?_⟩ ih
    · intro hc
      subst hc
      simp [sortCandsDesc]
    · by_cases hc : cands = []
      · subst hc
        simp [sortCandsDesc]
      · have hlen : (sortCandsDesc cands).length > 0 := by
          rw [sortCandsDesc_length]
          exact List.length_pos.mpr hc
        rw [if_pos hlen]
        intro hmap
        rw [List.map_eq_nil_iff] at hmap
        exact pyTakeSlice_ne_nil top_n h (sortCandsDesc cands)
          (List.ne_nil_of_length_pos hlen) hmap

/-- C2 (witness): a concrete batch with one empty and one nonempty
retrieved list under `top_n = 1`. -/
theorem C2_selector_nonempty_w :
    List.Forall₂
      (fun cands out =>
        (cands = [] → out = [EntityT.mk NIL UNAVAILABLE_ENTITY_DESC]) ∧ out ≠ [])
      [[], [Candidate.mk (strOf "Q1") 1]]
      (selectorCall (fun _ => none) 1 [[], [Candidate.mk (strOf "Q1") 1]]) :=
  C2_selector_nonempty (fun _ => none) 1 [[], [Candidate.mk (strOf "Q1") 1]]
    (by decide)

/-! ## Claim C8 -/

theorem set_cfg_attrs_of_map (keys : List Str) (g : Str → Str) :
    ∀ (f : Str → Str) (k : Str),
      ((keys.map (fun k0 => (k0, g k0))).foldl
        (fun f kv => fun k2 => if k2 = kv.1 then kv.2 else f k2) f) k =
        (if k ∈ keys then g k else f k) := by
  induction keys with
  | nil => intro f k; simp
  | cons k0 keys ih =>
    intro f k
    simp only [List.map_cons, List.foldl_cons]
    rw [ih]
    by_cases hk : k ∈ keys
    · simp [hk]
    · by_cases hk0 : k = k0
      · simp [hk, hk0]
      · simp [hk, hk0]

theorem from_to_bytes_attrs (s d : TaskStateM) (ex : List Str) (k : Str) :
    (from_bytes d (to_bytes s ex) ex).attrs k =
      (if strOf "cfg" ∈ ex then d.attrs k
       else if k ∈ s.cfgKeys then s.attrs k else d.attrs k) := by
  unfold from_bytes to_bytes
  by_cases hc : strOf "cfg" ∈ ex <;>
    by_cases hp : strOf "prompt_examples" ∈ ex <;>
      simp [hc, hp, set_cfg, get_cfg, set_cfg_attrs_of_map]

theorem from_to_bytes_examples (s d : TaskStateM) (ex : List Str) :
    (from_bytes d (to_bytes s ex) ex).examples =
      (if strOf "prompt_examples" ∈ ex then d.examples else s.examples) := by
  unfold from_bytes to_bytes
  by_cases hc : strOf "cfg" ∈ ex <;>
    by_cases hp : strOf "prompt_examples" ∈ ex <;>
      simp [hc, hp, set_cfg]

theorem from_to_bytes_cfgKeys (s d : TaskStateM) (ex : List Str) :
    (from_bytes d (to_bytes s ex) ex).cfgKeys = d.cfgKeys := by
  unfold from_bytes to_bytes
  by_cases hc : strOf "cfg" ∈ ex <;>
    by_cases hp : strOf "prompt_examples" ∈ ex <;>
      simp [hc, hp, set_cfg]

/-- C8: a serialize/deserialize round trip with the same exclusion set
reproduces the original state exactly — every config attribute, the
config-key list and the prompt examples — and for every exclusion-set
choice; loading into another instance shows that an excluded channel is
simply omitted on save and left at the target's own (default) state on
load, while an included channel carries the source's fields over. -/
theorem C8_roundtrip (s d : TaskStateM) (ex : List Str) (k : Str) :
    (from_bytes s (to_bytes s ex) ex).attrs k = s.attrs k ∧
    (from_bytes s (to_bytes s ex) ex).examples = s.examples ∧
    (from_bytes s (to_bytes s ex) ex).cfgKeys = s.cfgKeys ∧
    (from_bytes d (to_bytes s ex) ex).attrs k =
      (if strOf "cfg" ∈ ex then d.attrs k
       else if k ∈ s.cfgKeys then s.attrs k else d.attrs k) ∧
    (from_bytes d (to_bytes s ex) ex).examples =
      (if strOf "prompt_examples" ∈ ex then d.examples else s.examples) := by
  refine ⟨?_, ?_, from_to_bytes_cfgKeys s s ex, from_to_bytes_attrs s d ex k,
    from_to_bytes_examples s d ex⟩
  · rw [from_to_bytes_attrs s s ex k]
    split_ifs <;> rfl
  · rw [from_to_bytes_examples s s ex]
    split_ifs <;> rfl

/-! ## Claim C10 -/

theorem mem_insertSpanDesc (x a : SpanT) :
    ∀ l, x ∈ insertSpanDesc a l → x = a ∨ x ∈ l := by
  intro l
  induction l with
  | nil => intro h; rw [insertSpanDesc] at h; exact Or.inl (List.mem_singleton.mp h)
  | cons y ys ih =>
    intro h
    rw [insertSpanDesc] at h
    by_cases hc : spanLen y ≤ spanLen a
    · rw [if_pos hc] at h
      exact List.mem_cons.mp h
    · rw [if_neg hc] at h
      rcases List.mem_cons.mp h with h | h
      · exact Or.inr (List.mem_cons.mpr (Or.inl h))
      · rcases ih h with h2 | h2
        · exact Or.inl h2
        · exact Or.inr (List.mem_cons.mpr (Or.inr h2))

theorem mem_sortSpans (x : SpanT) : ∀ l, x ∈ sortSpans l → x ∈ l := by
  intro l
  induction l with
  | nil => intro h; simp [sortSpans] at h
  | cons a l ih =>
    intro h
    have hcons : sortSpans (a :: l) = insertSpanDesc a (sortSpans l) := rfl
    rw [hcons] at h
    rcases mem_insertSpanDesc x a _ h with h2 | h2
    · exact List.mem_cons.mpr (Or.inl h2)
    · exact List.mem_cons.mpr (Or.inr (ih h2))

theorem mem_filterGreedy (x : SpanT) :
    ∀ (rest acc : List SpanT), x ∈ filterGreedy acc rest → x ∈ acc ∨ x ∈ rest := by
  intro rest
  induction rest with
  | nil => intro acc h; exact Or.inl h
  | cons s rest ih =>
    intro acc h
    rw [filterGreedy] at h
    by_cases hall : acc.all (fun t => !overlapB s t) = true
    · rw [if_pos hall] at h
      rcases ih _ h with h2 | h2
      · rcases List.mem_append.mp h2 with h3 | h3
        · exact Or.inl h3
        · exact Or.inr (List.mem_cons.mpr (Or.inl (List.mem_singleton.mp h3)))
      · exact Or.inr (List.mem_cons.mpr (Or.inr h2))
    · rw [if_neg hall] at h
      rcases ih _ h with h2 | h2
      · exact Or.inl h2
      · exact Or.inr (List.mem_cons.mpr (Or.inr h2))

theorem mem_filter_spans (x : SpanT) (spans : List SpanT)
    (h : x ∈ filter_spans spans) : x ∈ spans := by
  rcases mem_filterGreedy x (sortSpans spans) [] h with h2 | h2
  · simp at h2
  · exact mem_sortSpans x spans h2

theorem dget_some_mem : ∀ (d : Dict) (k v : Str), dget d k = some v → (k, v) ∈ d := by
  intro d
  induction d with
  | nil => intro k v h; simp [dget] at h
  | cons p d ih =>
    intro k v h
    rw [dget] at h
    by_cases hp : p.1 = k
    · rw [if_pos hp] at h
      injection h with h
      have hpv : p = (k, v) := by
        cases p
        simp only at hp h
        simp [hp, h]
      exact List.mem_cons.mpr (Or.inl hpv.symm)
    · rw [if_neg hp] at h
      exact List.mem_cons.mpr (Or.inr (ih k v h))

theorem dhasKey_of_mem (d : Dict) (k v : Str) (h : (k, v) ∈ d) :
    dhasKey d k = true := by
  simp only [dhasKey, List.any_eq_true]
  exact ⟨(k, v), h, by simp⟩

theorem processLine_label (norm : Str → Str) (ld : Dict) (line : Str)
    (lp : Str × List Str) (h : lp ∈ processLine norm ld line) :
    ∃ k, dget ld k = some lp.1 := by
  unfold processLine at h
  by_cases h0 : line = []
  · rw [if_pos h0] at h; simp at h
  · rw [if_neg h0] at h
    cases hsp : pySplit1 ':' line with
    | none => rw [hsp] at h; simp at h
    | some p =>
      obtain ⟨label, phrases⟩ := p
      rw [hsp] at h
      replace h : lp ∈ (match dget ld (norm label) with
          | none => []
          | some canonical =>
            if pyStrip phrases = [] then []
            else [(canonical,
              (pySplitChar ',' (pyStrip phrases)).map pyStrip)]) := h
      cases hget : dget ld (norm label) with
      | none => rw [hget] at h; simp at h
      | some canonical =>
        rw [hget] at h
        replace h : lp ∈ (if pyStrip phrases = [] then []
            else [(canonical,
              (pySplitChar ',' (pyStrip phrases)).map pyStrip)]) := h
        by_cases hph : pyStrip phrases = []
        · rw [if_pos hph] at h; simp at h
        · rw [if_neg hph] at h
          rw [List.mem_singleton] at h
          subst h
          exact ⟨norm label, hget⟩

theorem format_response_label (norm : Str → Str) (ld : Dict) (resp : Str)
    (lp : Str × List Str) (h : lp ∈ format_response norm ld resp) :
    ∃ k, dget ld k = some lp.1 := by
  unfold format_response at h
  rw [List.mem_flatten] at h
  obtain ⟨l2, hl2, hmem⟩ := h
  rw [List.mem_map] at hl2
  obtain ⟨line, _, rfl⟩ := hl2
  exact processLine_label norm ld line lp hmem

theorem nerParseDoc_label (finder : Str → List Str → List (Nat × Nat))
    (charSpan : Str → Nat → Nat → Option (Nat × Nat))
    (norm : Str → Str) (ld : Dict) (doc : NerDoc) (resp : Str) (sp : SpanT)
    (h : sp ∈ (nerParseDoc finder charSpan norm ld doc resp).ents) :
    ∃ k, dget ld k = some sp.label := by
  unfold nerParseDoc at h
  simp only at h
  have h2 := mem_filter_spans _ _ h
  rw [List.mem_flatMap] at h2
  obtain ⟨lp, hlp, hsp⟩ := h2
  rw [List.mem_filterMap] at hsp
  obtain ⟨off, _, hoff⟩ := hsp
  rw [Option.map_eq_some'] at hoff
  obtain ⟨off2, _, rfl⟩ := hoff
  exact format_response_label norm ld resp lp hlp

/-- C10: every span attached by `NERTask.parse_responses` carries as its
label a canonical display form stored in the task's label dictionary
(and, whenever the dictionary's entries satisfy the construction
invariant `norm(value) = key`, the normalized form of the attached label
is itself a key of the dictionary); a response line without a colon, a
line whose normalized label is not a key, or a line whose phrase part is
empty after stripping, contributes no spans at all. -/
theorem C10_parse_labels (finder : Str → List Str → List (Nat × Nat))
    (charSpan : Str → Nat → Nat → Option (Nat × Nat))
    (norm : Str → Str) (ld : Dict) (doc : NerDoc) (resp : Str) :
    (∀ sp ∈ (nerParseDoc finder charSpan norm ld doc resp).ents,
      (∃ k, dget ld k = some sp.label) ∧
      ((∀ p ∈ ld, norm p.2 = p.1) → dhasKey ld (norm sp.label) = true)) ∧
    (∀ line : Str,
      (pySplit1 ':' line = none → processLine norm ld line = []) ∧
      (∀ lab ph, pySplit1 ':' line = some (lab, ph) →
        dget ld (norm lab) = none → processLine norm ld line = []) ∧
      (∀ lab ph, pySplit1 ':' line = some (lab, ph) →
        pyStrip ph = [] → processLine norm ld line = [])) := by
  constructor
  · intro sp hsp
    obtain ⟨k, hk⟩ := nerParseDoc_label finder charSpan norm ld doc resp sp hsp
    refine ⟨⟨k, hk⟩, ?_⟩
    intro hinv
    have hmem := dget_some_mem ld k sp.label hk
    have hnorm : norm sp.label = k := hinv (k, sp.label) hmem
    rw [hnorm]
    exact dhasKey_of_mem ld k sp.label hmem
  · intro line
    refine ⟨?_, ?_, ?_⟩
    · intro hnone
      unfold processLine
      by_cases h0 : line = []
      · rw [if_pos h0]
      · rw [if_neg h0, hnone]
    · intro lab ph hsp hget
      unfold processLine
      by_cases h0 : line = []
      · rw [if_pos h0]
      · rw [if_neg h0, hsp]
        simp [hget]
    · intro lab ph hsp hstrip
      unfold processLine
      by_cases h0 : line = []
      · rw [if_pos h0]
      · rw [if_neg h0, hsp]
        cases hget : dget ld (norm lab) with
        | none => simp [hget]
        | some c => simp [hget, hstrip]

/-- C10 (witness): with the label dictionary built from `"PER"`, a parsed
span's label normalizes to a stored key, and lines without a colon, with
an unknown label, or with an empty phrase list each contribute nothing. -/
theorem C10_parse_labels_w :
    dhasKey (nerLabelDict pyLower (strOf "PER"))
      (pyLower (strOf "PER")) = true ∧
    processLine pyLower (nerLabelDict pyLower (strOf "PER"))
      (strOf "no colon here") = [] ∧
    processLine pyLower (nerLabelDict pyLower (strOf "PER"))
      (strOf "LOC: x") = [] ∧
    processLine pyLower (nerLabelDict pyLower (strOf "PER"))
      (strOf "PER:  ") = [] :=
  ⟨((C10_parse_labels (fun _ _ => [(0, 2)]) (fun _ s e => some (s, e)) pyLower
      (nerLabelDict pyLower (strOf "PER")) (NerDoc.mk (strOf "ab") [])
      (strOf "PER: ab")).1 (SpanT.mk 0 2 (strOf "PER")) (by decide)).2 (by decide),
   ((C10_parse_labels (fun _ _ => [(0, 2)]) (fun _ s e => some (s, e)) pyLower
      (nerLabelDict pyLower (strOf "PER")) (NerDoc.mk (strOf "ab") [])
      (strOf "PER: ab")).2 (strOf "no colon here")).1 (by decide),
   ((C10_parse_labels (fun _ _ => [(0, 2)]) (fun _ s e => some (s, e)) pyLower
      (nerLabelDict pyLower (strOf "PER")) (NerDoc.mk (strOf "ab") [])
      (strOf "PER: ab")).2 (strOf "LOC: x")).2.1 (strOf "LOC") (strOf " x")
      (by decide) (by decide),
   ((C10_parse_labels (fun _ _ => [(0, 2)]) (fun _ s e => some (s, e)) pyLower
      (nerLabelDict pyLower (strOf "PER")) (NerDoc.mk (strOf "ab") [])
      (strOf "PER: ab")).2 (strOf "PER:  ")).2.2 (strOf "PER") (strOf "  ")
      (by decide) (by decide)⟩
